import Mathlib

/-!
Verification development for the ghttp static-file server with reverse-proxy
and WebSocket tunneling (repository tyemirov/ghttp).

The Go source is shallowly embedded: Go strings become lists of characters
(`Str`), the pure route-table construction and the per-request dispatch
decisions become Lean functions, and the effectful WebSocket tunnel becomes a
function over an explicit environment recording which of its fallible steps
succeed.  Each definition carries a comment naming the Go function it embeds.
-/

namespace GHttp

/-- A Go string, embedded as its list of characters. -/
abbrev Str := List Char

/-- The ASCII white-space characters trimmed by Go's strings.TrimSpace
(model of unicode.IsSpace restricted to ASCII). -/
def isGoSpace (c : Char) : Bool :=
  c = ' ' || c = '\t' || c = '\n' || c = '\r' || c = '\x0b' || c = '\x0c'

/-- Embeds strings.TrimSpace: removes leading and trailing white space. -/
def trimSpace (s : Str) : Str :=
  ((s.dropWhile isGoSpace).reverse.dropWhile isGoSpace).reverse

/-- Lower-cases one ASCII character (model of the unicode case mapping as used
by strings.ToLower / strings.EqualFold on ASCII data): each upper-case letter
maps to its lower-case form, every other character is unchanged. -/
def lowerChar (c : Char) : Char :=
  match c with
  | 'A' => 'a' | 'B' => 'b' | 'C' => 'c' | 'D' => 'd' | 'E' => 'e' | 'F' => 'f'
  | 'G' => 'g' | 'H' => 'h' | 'I' => 'i' | 'J' => 'j' | 'K' => 'k' | 'L' => 'l'
  | 'M' => 'm' | 'N' => 'n' | 'O' => 'o' | 'P' => 'p' | 'Q' => 'q' | 'R' => 'r'
  | 'S' => 's' | 'T' => 't' | 'U' => 'u' | 'V' => 'v' | 'W' => 'w' | 'X' => 'x'
  | 'Y' => 'y' | 'Z' => 'z'
  | other => other

/-- Embeds strings.ToLower (ASCII). -/
def toLowerAscii (s : Str) : Str := s.map lowerChar

/-- Embeds strings.EqualFold (ASCII): case-insensitive equality. -/
def equalFold (a b : Str) : Bool := toLowerAscii a = toLowerAscii b

/-- Embeds strings.HasPrefix s pre. -/
def goHasPre (s pre : Str) : Bool := pre.isPrefixOf s

/-- Embeds strings.HasSuffix s suf. -/
def goHasSuffix (s suf : Str) : Bool := suf.isSuffixOf s

/-- Embeds strings.Contains s sub (substring containment). -/
def containsSub : Str → Str → Bool
  | s, sub =>
    if sub.isPrefixOf s then true
    else match s with
      | [] => false
      | _ :: rest => containsSub rest sub

/-- Splits at the first occurrence of the character sep.  `some (l, r)` models
strings.SplitN(s, sep, 2) returning two parts; `none` models the separator
being absent (SplitN returning a single part). -/
def splitOnceChar (sep : Char) : Str → Option (Str × Str)
  | [] => none
  | c :: rest =>
    if c = sep then some ([], rest)
    else match splitOnceChar sep rest with
      | none => none
      | some (l, r) => some (c :: l, r)

/-- Splits at the first occurrence of the substring sep (used to model Go's
URL parser cutting a URL at "://"). -/
def splitOnceSub (sep : Str) : Str → Option (Str × Str)
  | [] => if sep = [] then some ([], []) else none
  | c :: rest =>
    if sep.isPrefixOf (c :: rest) then some ([], (c :: rest).drop sep.length)
    else match splitOnceSub sep rest with
      | none => none
      | some (l, r) => some (c :: l, r)

/-- Embeds strings.Split(s, sep) for a one-character separator. -/
def splitChar (sep : Char) : Str → List Str
  | [] => [[]]
  | c :: rest =>
    match splitChar sep rest with
    | [] => [[]]
    | p :: ps => if c = sep then [] :: p :: ps else (c :: p) :: ps

/-- Embeds strings.Join(parts, sep) for a one-character separator. -/
def joinChar (sep : Char) : List Str → Str
  | [] => []
  | [p] => p
  | p :: ps => p ++ sep :: joinChar sep ps

/-- Embeds strings.ReplaceAll for one-character old/new values. -/
def replaceAllChar (s : Str) (a b : Char) : Str :=
  s.map fun c => if c = a then b else c

/-! ## Go path cleaning (package path)

`pathClean` embeds Go's path.Clean and `goPathJoin` embeds path.Join for two
elements; the initial-file handler and the Markdown handler build paths with
them. -/

/-- The effect of a ".." path element on the output elements collected so far
(held in reverse): pop the previous element when one is there to pop, keep
".." when the previous element is itself an unresolvable "..", drop ".."
entirely at the root of a rooted path and keep it for a relative path. -/
def dropParent (rooted : Bool) (acc : List Str) : List Str :=
  match acc with
  | t :: acc' => if t = ['.', '.'] then ['.', '.'] :: t :: acc' else acc'
  | [] => if rooted then [] else [['.', '.']]

/-- One step of path.Clean on the list of slash-separated elements: empty and
"." elements are dropped, ".." is resolved by dropParent.  `acc` holds the
output elements in reverse. -/
def cleanSegs (rooted : Bool) : List Str → List Str → List Str
  | acc, [] => acc.reverse
  | acc, s :: rest =>
    if s = [] ∨ s = ['.'] then cleanSegs rooted acc rest
    else if s = ['.', '.'] then cleanSegs rooted (dropParent rooted acc) rest
    else cleanSegs rooted (s :: acc) rest

/-- Embeds Go path.Clean. -/
def pathClean (p : Str) : Str :=
  if p = [] then ['.']
  else
    let rooted := p.head? = some '/'
    let segs := cleanSegs rooted [] (splitChar '/' p)
    let out := (if rooted then ['/'] else []) ++ joinChar '/' segs
    if out = [] then ['.'] else out

/-- Embeds Go path.Join for two elements: empty elements are skipped and the
result is Clean'ed. -/
def goPathJoin (a b : Str) : Str :=
  if a = [] then (if b = [] then [] else pathClean b)
  else pathClean (a ++ '/' :: b)

/-! ## Route table (internal/server proxy_routes: NewProxyRoutes and helpers) -/

/-- The relevant components of a Go net/url.URL as produced by url.Parse for a
proxy backend: the scheme and the host (authority).  Path and query do not
participate in route-table validation. -/
structure GoURL where
  scheme : Str
  host : Str
  deriving DecidableEq, Repr

/-- Valid first character of a URL scheme (Go url.getScheme). -/
def isSchemeFirst (c : Char) : Bool := c.isAlpha

/-- Valid subsequent character of a URL scheme (Go url.getScheme). -/
def isSchemeRest (c : Char) : Bool := c.isAlpha || c.isDigit || c = '+' || c = '-' || c = '.'

/-- Model of Go url.Parse restricted to what the route validation reads: for a
string of the form "scheme://authority/rest" it yields the scheme and the
authority (the host, cut at the first slash); an absent or invalid scheme
yields an URL with empty scheme and host (as Go parses such strings as opaque
or relative references with no authority); a bare "://..." fails as Go's
"missing protocol scheme" error.  Userinfo and IPv6 brackets are outside this
model's scope (the repository's route validation never sees them). -/
def goURLParse (s : Str) : Option GoURL :=
  match splitOnceSub ['/', '/'] s with
  | some (beforeSlashes, rest) =>
    match beforeSlashes.reverse with
    | ':' :: schRev =>
      let sch := schRev.reverse
      if sch = [] then none
      else if sch.all isSchemeRest ∧ (sch.head?.map isSchemeFirst = some true) then
        some { scheme := sch, host := rest.takeWhile (· ≠ '/') }
      else some { scheme := [], host := [] }
    | _ => some { scheme := [], host := [] }
  | none => some { scheme := [], host := [] }

/-- Embeds url.URL.Hostname(): the host with any trailing ":port" section (the
part after the last colon) removed; a host without a colon is returned
unchanged.  (net/url stripPort, without the IPv6 bracket case.) -/
def stripPort (h : Str) : Str :=
  match splitOnceChar ':' h.reverse with
  | none => h
  | some (_, beforeRev) => beforeRev.reverse

/-- The two error kinds of route-table construction: ErrInvalidProxyRoute
(one offending mapping) and ErrInvalidProxyRoutes (a duplicate path prefix
across mappings).  The message records the static text of the wrapped
fmt.Errorf. -/
inductive ProxyError where
  | invalidProxyRoute (message : Str)
  | invalidProxyRoutes (message : Str)
  deriving DecidableEq, Repr

/-- errors.Is(err, ErrInvalidProxyRoute). -/
def ProxyError.isSingleMappingError : ProxyError → Bool
  | .invalidProxyRoute _ => true
  | .invalidProxyRoutes _ => false

/-- errors.Is(err, ErrInvalidProxyRoutes). -/
def ProxyError.isDuplicateError : ProxyError → Bool
  | .invalidProxyRoute _ => false
  | .invalidProxyRoutes _ => true

/-- Embeds the proxyRoute struct: a path prefix and a validated backend URL. -/
structure Route where
  pathPrefix : Str
  backendURL : GoURL
  deriving DecidableEq, Repr

/-- Embeds parseProxyBackendURL: the backend side of a mapping must be
non-empty, parse as a URL with scheme http or https (case-insensitively), and
have a non-empty well-formed host (no bare trailing colon, no "//" inside the
hostname). -/
def parseProxyBackendURL (backendURL : Str) : Except ProxyError GoURL :=
  if trimSpace backendURL = [] then
    .error (.invalidProxyRoute ("empty backend url").data)
  else
    match goURLParse backendURL with
    | none => .error (.invalidProxyRoute ("parse backend url").data)
    | some parsedURL =>
      if ¬(equalFold parsedURL.scheme ("http").data ∨ equalFold parsedURL.scheme ("https").data) then
        .error (.invalidProxyRoute ("backend url must use http or https").data)
      else if parsedURL.host = [] then
        .error (.invalidProxyRoute ("backend url must include host").data)
      else if stripPort parsedURL.host = [] ∨ goHasSuffix parsedURL.host [':']
          ∨ containsSub (stripPort parsedURL.host) ['/', '/'] then
        .error (.invalidProxyRoute ("backend url must include valid host").data)
      else .ok parsedURL

/-- Embeds newProxyRoute: the path prefix must be non-empty and start with
"/", and the backend URL must validate. -/
def newProxyRoute (pathPre backendURL : Str) : Except ProxyError Route :=
  if pathPre = [] then .error (.invalidProxyRoute ("empty path prefix").data)
  else if ¬goHasPre pathPre ['/'] then
    .error (.invalidProxyRoute ("path prefix must start with /").data)
  else
    match parseProxyBackendURL backendURL with
    | .error e => .error e
    | .ok parsedURL => .ok { pathPrefix := pathPre, backendURL := parsedURL }

/-- Embeds parseProxyMapping: trim the mapping, split it at the first "=", trim
both sides and validate them as a route. -/
def parseProxyMapping (mapping : Str) : Except ProxyError Route :=
  if trimSpace mapping = [] then .error (.invalidProxyRoute ("empty mapping").data)
  else
    match splitOnceChar '=' (trimSpace mapping) with
    | none => .error (.invalidProxyRoute ("mapping must be in from=backend form").data)
    | some (l, r) => newProxyRoute (trimSpace l) (trimSpace r)

/-- The loop body of NewProxyRoutes: parse each mapping in order, failing on
the first parse error, and fail with the duplicate-prefix error when a
mapping's prefix was already seen. -/
def buildRoutes : List Str → List Str → Except ProxyError (List Route)
  | _, [] => .ok []
  | seen, m :: rest =>
    match parseProxyMapping m with
    | .error e => .error e
    | .ok route =>
      if seen.contains route.pathPrefix then
        .error (.invalidProxyRoutes ("duplicate path prefix").data)
      else
        match buildRoutes (route.pathPrefix :: seen) rest with
        | .error e => .error e
        | .ok routes => .ok (route :: routes)

/-- Length of a route's path prefix (the sort key of NewProxyRoutes). -/
def Route.preLen (r : Route) : Nat := r.pathPrefix.length

/-- Inserts a route into a list sorted by non-increasing prefix length,
after every stored route of greater length and before the first of equal or
smaller length. -/
def insertRoute (r : Route) : List Route → List Route
  | [] => [r]
  | s :: rest =>
    if r.preLen < s.preLen then s :: insertRoute r rest
    else r :: s :: rest

/-- The stable sort of NewProxyRoutes (Go sort.SliceStable with the comparator
"longer prefix first").  A stable sort's output is determined by the
comparator alone, so this insertion sort computes the same sequence as Go's
library sort: non-increasing prefix length, ties in input order. -/
def sortRoutes : List Route → List Route
  | [] => []
  | r :: rest => insertRoute r (sortRoutes rest)

/-- Embeds the ProxyRoutes struct. -/
structure ProxyRoutes where
  routes : List Route
  deriving DecidableEq, Repr

/-- Embeds NewProxyRoutes: an empty mapping list gives an empty table;
otherwise every mapping is parsed and checked against the prefixes already
seen, and the parsed routes are stably sorted by descending prefix length. -/
def NewProxyRoutes (routeMappings : List Str) : Except ProxyError ProxyRoutes :=
  if routeMappings = [] then .ok ⟨[]⟩
  else
    match buildRoutes [] routeMappings with
    | .error e => .error e
    | .ok parsedRoutes => .ok ⟨sortRoutes parsedRoutes⟩

/-! ## Proxy dispatcher (internal/server/proxy_handler.go) -/

/-- The slice of a request that the proxy dispatcher reads: the URL path and
the values returned by Header.Get("Connection") and Header.Get("Upgrade")
(Get yields the first value of the header, or the empty string). -/
structure Request where
  path : Str
  connectionHeader : Str
  upgradeHeader : Str
  deriving DecidableEq, Repr

/-- Where the dispatcher sends a request: the fallback handler, the standard
HTTP reverse proxy of a route, or the WebSocket tunnel of a route. -/
inductive DispatchOutcome where
  | fallback
  | httpProxy (r : Route)
  | webSocketTunnel (r : Route)
  deriving DecidableEq, Repr

/-- Embeds proxyHandler.matchRoute: scan the stored routes in order and return
the first whose pathPrefix is a literal string prefix of the request path. -/
def matchRoute : List Route → Str → Option Route
  | [], _ => none
  | r :: rest, requestPath =>
    if goHasPre requestPath r.pathPrefix then some r
    else matchRoute rest requestPath

/-- Embeds isWebSocketUpgrade: the lower-cased Connection header contains
"upgrade" and the lower-cased Upgrade header equals "websocket". -/
def isWebSocketUpgrade (request : Request) : Bool :=
  containsSub (toLowerAscii request.connectionHeader) ("upgrade").data
    && (toLowerAscii request.upgradeHeader = ("websocket").data)

/-- Embeds proxyHandler.ServeHTTP: no matching route delegates to the fallback
handler; a matching route goes to the WebSocket tunnel when the request is a
WebSocket upgrade and to the HTTP reverse proxy otherwise. -/
def proxyServeHTTP (routes : List Route) (request : Request) : DispatchOutcome :=
  match matchRoute routes request.path with
  | none => .fallback
  | some r =>
    if isWebSocketUpgrade request then .webSocketTunnel r
    else .httpProxy r

/-! ## WebSocket tunnel (handleWebSocket)

The tunnel's effects are embedded over an explicit environment listing which
of its fallible steps would succeed; the result records the HTTP status
written (if any) and which side effects were reached. -/

/-- Which fallible steps of handleWebSocket succeed in a given run. -/
structure TunnelEnv where
  dialOk : Bool
  supportsHijacker : Bool
  hijackOk : Bool
  writeUpgradeOk : Bool
  readResponseOk : Bool
  writeResponseOk : Bool
  deriving DecidableEq, Repr

/-- What a run of handleWebSocket did: the HTTP error status written to the
response writer (none when no status was written), whether Hijack() was
invoked, whether any bytes were written to the backend connection, and whether
the two relay loops were started. -/
structure TunnelResult where
  httpStatus : Option Nat
  hijackAttempted : Bool
  backendWriteAttempted : Bool
  relayStarted : Bool
  deriving DecidableEq, Repr

/-- Embeds handleWebSocket's control flow: dial the backend (failure writes
502 and returns); check that the response writer supports http.Hijacker
(failure writes 500 and returns before any takeover); hijack (failure writes
500); write the upgrade request to the backend, read and relay the backend's
response (each failure aborts silently); then start the two relay loops. -/
def handleWebSocket (env : TunnelEnv) : TunnelResult :=
  if ¬env.dialOk then
    { httpStatus := some 502, hijackAttempted := false
      backendWriteAttempted := false, relayStarted := false }
  else if ¬env.supportsHijacker then
    { httpStatus := some 500, hijackAttempted := false
      backendWriteAttempted := false, relayStarted := false }
  else if ¬env.hijackOk then
    { httpStatus := some 500, hijackAttempted := true
      backendWriteAttempted := false, relayStarted := false }
  else if ¬env.writeUpgradeOk then
    { httpStatus := none, hijackAttempted := true
      backendWriteAttempted := true, relayStarted := false }
  else if ¬env.readResponseOk then
    { httpStatus := none, hijackAttempted := true
      backendWriteAttempted := true, relayStarted := false }
  else if ¬env.writeResponseOk then
    { httpStatus := none, hijackAttempted := true
      backendWriteAttempted := true, relayStarted := false }
  else
    { httpStatus := none, hijackAttempted := true
      backendWriteAttempted := true, relayStarted := true }

/-! ## Status-recording wrapper (internal/server/file_server.go)

Go's interface satisfaction is by method set.  The statusRecorder struct
embeds the interface http.ResponseWriter and declares WriteHeader and Write of
its own; embedding an interface promotes exactly the methods declared by that
interface type, never the further methods of the dynamic value stored in the
field.  The definitions below embed that typing rule. -/

/-- The methods declared by the http.ResponseWriter interface. -/
def responseWriterMethods : List Str :=
  [("Header").data, ("Write").data, ("WriteHeader").data]

/-- The methods declared by the http.Hijacker interface. -/
def hijackerMethods : List Str := [("Hijack").data]

/-- The method set of *statusRecorder: its own declared methods (WriteHeader,
Write) together with the methods promoted from the embedded http.ResponseWriter
interface.  The parameter is the method set of the underlying response writer;
Go's promotion rule ignores it, since only the embedded interface type's
declared methods are promoted. -/
def statusRecorderMethods (_underlyingMethods : List Str) : List Str :=
  ("WriteHeader").data :: ("Write").data :: responseWriterMethods

/-- Go's "value satisfies interface" check: every method of the interface is
in the method set. -/
def implementsIface (methodSet iface : List Str) : Bool :=
  iface.all fun m => methodSet.contains m

/-- The type assertion responseWriter.(http.Hijacker) evaluated at a
*statusRecorder wrapping a writer with the given method set. -/
def statusRecorderSupportsHijacker (underlyingMethods : List Str) : Bool :=
  implementsIface (statusRecorderMethods underlyingMethods) hijackerMethods

/-! ## Handler chain (file_server.go buildFileHandler, markdown_handler.go,
browse handler, directory guard, initial-file handler)

The served directory tree is embedded as a finite map from request paths to
nodes; http.FileSystem.Open is a lookup, FileInfo.Name() is the stored base
name and Readdir(-1) returns the stored entries. -/

/-- One entry of a directory listing (fs.FileInfo as read by the handlers:
base name and directory flag). -/
structure DirEntry where
  name : Str
  isDir : Bool
  deriving DecidableEq, Repr

/-- A node of the served tree: a regular file (with its base name) or a
directory with its entries. -/
inductive Node where
  | file (name : Str)
  | dir (entries : List DirEntry)
  deriving DecidableEq, Repr

/-- The served directory tree: an association from request path to node. -/
abbrev FS := List (Str × Node)

/-- Embeds http.FileSystem.Open (and the Stat that follows it): lookup of a
path, `none` when opening fails. -/
def fsOpen (fs : FS) (p : Str) : Option Node :=
  (fs.find? fun e => e.fst = p).map fun e => e.snd

/-- How the composed handler chain disposes of a request. -/
inductive ServeOutcome where
  | staticServe
  | browseFileServe (p : Str)
  | browseListing (p : Str)
  | markdownRendered (p : Str)
  | forbidden
  deriving DecidableEq, Repr

/-- Embeds isMarkdownFile: the file extension equals ".md" case-insensitively
(filepath.Ext is the suffix from the last dot of the base name). -/
def isMarkdownFile (fileName : Str) : Bool :=
  equalFold (extOf fileName) ('.' :: 'm' :: 'd' :: [])
where
  /-- filepath.Ext: the suffix starting at the last dot, "" without a dot. -/
  extOf (n : Str) : Str :=
    match splitOnceChar '.' n.reverse with
    | none => []
    | some (revExt, _) => '.' :: revExt.reverse

/-- Embeds markdownHandler.directoryIndexExists: a literal "index.html" or
"index.htm" in the directory opens and stats as a non-directory. -/
def directoryIndexExists (fs : FS) (directoryPath : Str) : Bool :=
  [("index.html").data, ("index.htm").data].any fun candidateName =>
    match fsOpen fs (goPathJoin directoryPath candidateName) with
    | some (.file _) => true
    | _ => false

/-- Embeds the loop of markdownHandler.selectMarkdownCandidate: walk the
directory entries in order, skipping directories and non-Markdown files; the
first entry named "README.md" case-insensitively is returned at once; after
the walk, a single collected Markdown entry is the candidate, any other count
yields none.  `acc` holds the collected non-README Markdown entries. -/
def selectCandidateLoop : List DirEntry → List DirEntry → Option DirEntry
  | acc, [] => if acc.length = 1 then acc.head? else none
  | acc, e :: rest =>
    if e.isDir then selectCandidateLoop acc rest
    else if ¬isMarkdownFile e.name then selectCandidateLoop acc rest
    else if equalFold e.name ("README.md").data then some e
    else selectCandidateLoop (acc ++ [e]) rest

/-- Embeds selectMarkdownCandidate for a readable directory. -/
def selectMarkdownCandidate (entries : List DirEntry) : Option DirEntry :=
  selectCandidateLoop [] entries

/-- Embeds markdownHandler.serveMarkdownFile: open the Markdown file and serve
the rendered document (the Markdown-to-HTML collaborator never fails); an open
failure falls through to the next handler. -/
def serveMarkdownFile (fs : FS) (next : Str → ServeOutcome)
    (requestPath markdownPath : Str) : ServeOutcome :=
  match fsOpen fs markdownPath with
  | some _ => .markdownRendered markdownPath
  | none => next requestPath

/-- Embeds markdownHandler.serveDirectory: only trailing-slash paths are
handled; with directory-level Markdown disabled fall through; an existing
index file falls through (index wins); otherwise serve the selected Markdown
candidate; with no candidate respond 403 when listing is disabled, else fall
through. -/
def serveDirectory (fs : FS) (disableDirectoryListing enableDirectoryMarkdown : Bool)
    (next : Str → ServeOutcome) (requestPath : Str) (entries : List DirEntry) :
    ServeOutcome :=
  if ¬goHasSuffix requestPath ['/'] then next requestPath
  else if ¬enableDirectoryMarkdown then next requestPath
  else if directoryIndexExists fs requestPath then next requestPath
  else
    match selectMarkdownCandidate entries with
    | some e => serveMarkdownFile fs next requestPath (goPathJoin requestPath e.name)
    | none =>
      if disableDirectoryListing then .forbidden
      else next requestPath

/-- Embeds markdownHandler.ServeHTTP: unopenable paths fall through;
directories go to serveDirectory; non-Markdown files fall through; Markdown
files are rendered and served. -/
def markdownServeHTTP (fs : FS) (disableDirectoryListing enableDirectoryMarkdown : Bool)
    (next : Str → ServeOutcome) (requestPath : Str) : ServeOutcome :=
  match fsOpen fs requestPath with
  | none => next requestPath
  | some (.dir entries) =>
    serveDirectory fs disableDirectoryListing enableDirectoryMarkdown next requestPath entries
  | some (.file name) =>
    if ¬isMarkdownFile name then next requestPath
    else serveMarkdownFile fs next requestPath requestPath

/-- Embeds browseHandler.serveDirectFileRequest: a non-empty path without a
trailing slash that opens as a non-directory, non-Markdown file is served
directly. -/
def browseDirectFile (fs : FS) (requestPath : Str) : Bool :=
  if requestPath = [] ∨ goHasSuffix requestPath ['/'] then false
  else
    match fsOpen fs requestPath with
    | some (.file name) => !isMarkdownFile name
    | _ => false

/-- Embeds browseHandler.ServeHTTP: serve direct file requests; otherwise only
trailing-slash paths that open as directories are rendered as listings;
everything else falls through. -/
def browseServeHTTP (fs : FS) (next : Str → ServeOutcome) (requestPath : Str) :
    ServeOutcome :=
  if browseDirectFile fs requestPath then .browseFileServe requestPath
  else if ¬goHasSuffix requestPath ['/'] ∨ requestPath = [] then next requestPath
  else
    match fsOpen fs requestPath with
    | some (.dir _) => .browseListing requestPath
    | _ => next requestPath

/-- Embeds newDirectoryGuardHandler: any trailing-slash path is rejected with
403, everything else falls through. -/
def directoryGuard (next : Str → ServeOutcome) (requestPath : Str) : ServeOutcome :=
  if goHasSuffix requestPath ['/'] then .forbidden
  else next requestPath

/-- Embeds newInitialFileHandler's construction: the configured relative path
with backslashes replaced by slashes, joined under "/" and cleaned. -/
def initialFilePath (initialFileRelativePath : Str) : Str :=
  pathClean (goPathJoin ['/'] (replaceAllChar initialFileRelativePath '\\' '/'))

/-- Embeds initialFileHandler.ServeHTTP's path substitution: exactly the root
path "/" is rewritten to the configured initial file path; every other path is
delegated unchanged. -/
def initialFileRewrite (initialRequestPath requestPath : Str) : Str :=
  if requestPath = ['/'] then initialRequestPath else requestPath

/-- The feature flags of FileServerConfiguration read by buildFileHandler. -/
structure HandlerConfig where
  enableMarkdown : Bool
  browseDirectories : Bool
  disableDirectoryListing : Bool
  initialFileRelativePath : Str
  deriving DecidableEq, Repr

/-- Embeds FileServer.buildFileHandler: the static handler is wrapped by the
Markdown handler (with directory-level Markdown enabled only outside browse
mode) or the directory guard, then by the browse handler, then by the
initial-file handler (only outside browse mode, when configured). -/
def buildFileHandler (cfg : HandlerConfig) (fs : FS) : Str → ServeOutcome :=
  let baseHandler : Str → ServeOutcome := fun _ => .staticServe
  let handler1 :=
    if cfg.enableMarkdown then
      markdownServeHTTP fs cfg.disableDirectoryListing (!cfg.browseDirectories) baseHandler
    else if cfg.disableDirectoryListing && !cfg.browseDirectories then
      directoryGuard baseHandler
    else baseHandler
  let handler2 :=
    if cfg.browseDirectories then browseServeHTTP fs handler1 else handler1
  if !cfg.initialFileRelativePath.isEmpty && !cfg.browseDirectories then
    fun p => handler2 (initialFileRewrite (initialFilePath cfg.initialFileRelativePath) p)
  else handler2

/-! ## Concrete examples used by the claims -/

/-- The route parsed from the mapping "/api/internal=http://backend-b". -/
def exampleInternalRoute : Route :=
  { pathPrefix := ("/api/internal").data
    backendURL := { scheme := ("http").data, host := ("backend-b").data } }

/-- The route parsed from the mapping "/api=http://backend-a". -/
def exampleApiRoute : Route :=
  { pathPrefix := ("/api").data
    backendURL := { scheme := ("http").data, host := ("backend-a").data } }

/-- A served tree with one directory "/d/" holding only a README.md file. -/
def exampleDirFS : FS :=
  [ (("/d/").data, .dir [⟨("README.md").data, false⟩]),
    (("/d/README.md").data, .file ("README.md").data) ]

/-- A served tree with a single Markdown file at "/doc.md". -/
def exampleMarkdownFS : FS :=
  [(("/doc.md").data, .file ("doc.md").data)]

end GHttp

namespace GHttp

/-! ## Helper lemmas -/

/-- The dispatcher's scan is the first match in table order. -/
theorem matchRoute_eq_find? (routes : List Route) (p : Str) :
    matchRoute routes p = routes.find? fun r => goHasPre p r.pathPrefix := by
  induction routes with
  | nil => rfl
  | cons r rest ih =>
    simp only [matchRoute, List.find?]
    cases h : goHasPre p r.pathPrefix <;> simp [h, ih]

/-! ## Claims -/

/-- C1: for every request and route table, the proxy dispatcher selects the
first route in table order whose pathPrefix is a literal string prefix of the
request path, and delegates to the fallback handler when no route's prefix is
a literal prefix of the path; with routes built from "/api" and
"/api/internal" (stored after the sort as /api/internal, /api), a request to
"/api/internal/x" dispatches to the /api/internal backend, a request to
"/api/other" dispatches to the /api backend, and the literal (not
path-segment-aware) test makes "/api" match "/apiextra" too. -/
theorem proxy_dispatch_first_literal_match (routes : List Route) (request : Request) :
    matchRoute routes request.path
        = (routes.find? fun r => goHasPre request.path r.pathPrefix)
    ∧ ((∀ r ∈ routes, goHasPre request.path r.pathPrefix = false) →
        proxyServeHTTP routes request = .fallback)
    ∧ NewProxyRoutes [("/api=http://backend-a").data, ("/api/internal=http://backend-b").data]
        = .ok ⟨[exampleInternalRoute, exampleApiRoute]⟩
    ∧ proxyServeHTTP [exampleInternalRoute, exampleApiRoute]
        ⟨("/api/internal/x").data, [], []⟩ = .httpProxy exampleInternalRoute
    ∧ proxyServeHTTP [exampleInternalRoute, exampleApiRoute]
        ⟨("/api/other").data, [], []⟩ = .httpProxy exampleApiRoute
    ∧ matchRoute [exampleInternalRoute, exampleApiRoute] ("/apiextra").data
        = some exampleApiRoute := by
  refine ⟨matchRoute_eq_find? routes request.path, ?_, by rfl, by decide, by decide, by decide⟩
  intro hnone
  have hm : matchRoute routes request.path = none := by
    rw [matchRoute_eq_find? routes request.path, List.find?_eq_none]
    intro a ha
    simp [hnone a ha]
  simp [proxyServeHTTP, hm]

/-- Witness for C1: an unmatched request falls back. -/
theorem proxy_dispatch_first_literal_match_witness :
    proxyServeHTTP [exampleApiRoute] ⟨("/zzz").data, [], []⟩ = .fallback := by
  have h := proxy_dispatch_first_literal_match [exampleApiRoute] ⟨("/zzz").data, [], []⟩
  exact h.2.1 (by decide)

/-- C3: a matched request goes to the WebSocket tunnel exactly when its
Connection header case-insensitively contains "upgrade" and its Upgrade header
case-insensitively equals "websocket"; every other matched request goes to the
HTTP reverse proxy. -/
theorem matched_request_ws_tunnel_iff (routes : List Route) (request : Request)
    (r : Route) (hmatch : matchRoute routes request.path = some r) :
    (proxyServeHTTP routes request = .webSocketTunnel r ↔
      (containsSub (toLowerAscii request.connectionHeader) ("upgrade").data = true
        ∧ toLowerAscii request.upgradeHeader = ("websocket").data))
    ∧ (proxyServeHTTP routes request = .httpProxy r ↔
      ¬(containsSub (toLowerAscii request.connectionHeader) ("upgrade").data = true
        ∧ toLowerAscii request.upgradeHeader = ("websocket").data)) := by
  unfold proxyServeHTTP
  rw [hmatch]
  cases hws : isWebSocketUpgrade request with
  | true =>
    rw [isWebSocketUpgrade, Bool.and_eq_true, decide_eq_true_eq] at hws
    simp [hws]
  | false =>
    rw [isWebSocketUpgrade] at hws
    rw [Bool.and_eq_false_iff] at hws
    constructor
    · constructor
      · intro h
        exact absurd h (by simp)
      · intro h
        rcases hws with hws | hws
        · exact absurd h.1 (by simp [hws])
        · rw [decide_eq_false_iff_not] at hws
          exact absurd h.2 hws
    · constructor
      · intro _ h
        rcases hws with hws | hws
        · exact absurd h.1 (by simp [hws])
        · rw [decide_eq_false_iff_not] at hws
          exact absurd h.2 hws
      · intro _
        simp

/-- Witness for C3: a request with "Connection: keep-alive, Upgrade" and
"Upgrade: WebSocket" on a matched route is tunneled. -/
theorem matched_request_ws_tunnel_iff_witness :
    proxyServeHTTP [exampleApiRoute]
        ⟨("/api/ws").data, ("keep-alive, Upgrade").data, ("WebSocket").data⟩
      = .webSocketTunnel exampleApiRoute := by
  have h := matched_request_ws_tunnel_iff [exampleApiRoute]
    ⟨("/api/ws").data, ("keep-alive, Upgrade").data, ("WebSocket").data⟩
    exampleApiRoute (by decide)
  exact h.1.mpr ⟨by decide, by decide⟩

/-- C4: a failed backend dial makes the tunnel respond 502 without attempting
the connection takeover and without touching the backend connection; a
successful dial with a response writer that does not support takeover makes it
respond 500, again without attempting the takeover and without writing or
relaying any backend bytes. -/
theorem tunnel_dial_and_hijack_failures (env : TunnelEnv) :
    (env.dialOk = false →
      handleWebSocket env =
        { httpStatus := some 502, hijackAttempted := false
          backendWriteAttempted := false, relayStarted := false })
    ∧ (env.dialOk = true → env.supportsHijacker = false →
      handleWebSocket env =
        { httpStatus := some 500, hijackAttempted := false
          backendWriteAttempted := false, relayStarted := false }) := by
  obtain ⟨d, s, hj, w, r, wr⟩ := env
  constructor
  · intro h
    subst h
    simp [handleWebSocket]
  · intro hd hs
    subst hd
    subst hs
    simp [handleWebSocket]

/-- Witness for C4: the two failure environments evaluated concretely. -/
theorem tunnel_dial_and_hijack_failures_witness :
    handleWebSocket ⟨false, true, true, true, true, true⟩
        = { httpStatus := some 502, hijackAttempted := false
            backendWriteAttempted := false, relayStarted := false }
    ∧ handleWebSocket ⟨true, false, true, true, true, true⟩
        = { httpStatus := some 500, hijackAttempted := false
            backendWriteAttempted := false, relayStarted := false } := by
  have h1 := tunnel_dial_and_hijack_failures ⟨false, true, true, true, true, true⟩
  have h2 := tunnel_dial_and_hijack_failures ⟨true, false, true, true, true, true⟩
  exact ⟨h1.1 rfl, h2.2 rfl rfl⟩

/-- Inserting keeps the same elements. -/
theorem insertRoute_perm (r : Route) (l : List Route) :
    (insertRoute r l).Perm (r :: l) := by
  induction l with
  | nil => simp [insertRoute]
  | cons s rest ih =>
    rw [insertRoute]
    by_cases hlt : r.preLen < s.preLen
    · rw [if_pos hlt]
      exact (List.Perm.cons s ih).trans (List.Perm.swap r s rest)
    · rw [if_neg hlt]

/-- The stable sort keeps the same elements. -/
theorem sortRoutes_perm (l : List Route) : (sortRoutes l).Perm l := by
  induction l with
  | nil => rfl
  | cons r rest ih =>
    rw [sortRoutes]
    exact (insertRoute_perm r (sortRoutes rest)).trans (List.Perm.cons r ih)

/-- Inserting into a list of non-increasing prefix lengths preserves the
order. -/
theorem insertRoute_sorted (r : Route) (l : List Route)
    (hl : l.Pairwise fun a b => b.preLen ≤ a.preLen) :
    (insertRoute r l).Pairwise fun a b => b.preLen ≤ a.preLen := by
  induction l with
  | nil => simp [insertRoute]
  | cons s rest ih =>
    rw [List.pairwise_cons] at hl
    rw [insertRoute]
    by_cases hlt : r.preLen < s.preLen
    · rw [if_pos hlt]
      rw [List.pairwise_cons]
      refine ⟨?_, ih hl.2⟩
      intro x hx
      have hmem : x ∈ r :: rest := (insertRoute_perm r rest).mem_iff.mp hx
      rcases List.mem_cons.mp hmem with hx' | hx'
      · subst hx'
        omega
      · exact hl.1 x hx'
    · rw [if_neg hlt]
      rw [List.pairwise_cons]
      refine ⟨?_, List.pairwise_cons.mpr hl⟩
      intro x hx
      rcases List.mem_cons.mp hx with hx' | hx'
      · subst hx'
        omega
      · have := hl.1 x hx'
        omega

/-- The sorted table has non-increasing prefix lengths. -/
theorem sortRoutes_sorted (l : List Route) :
    (sortRoutes l).Pairwise fun a b => b.preLen ≤ a.preLen := by
  induction l with
  | nil => simp [sortRoutes]
  | cons r rest ih => exact insertRoute_sorted r (sortRoutes rest) ih

/-- Inserting a route touches no fixed-length slice except by putting the new
route in front of it (stability at one length). -/
theorem filter_preLen_insertRoute (r : Route) (l : List Route) (n : Nat) :
    (insertRoute r l).filter (fun x => x.preLen = n)
      = if r.preLen = n then r :: l.filter (fun x => x.preLen = n)
        else l.filter (fun x => x.preLen = n) := by
  induction l with
  | nil =>
    rw [insertRoute]
    by_cases hrn : r.preLen = n <;> simp [List.filter_cons, hrn]
  | cons s rest ih =>
    rw [insertRoute]
    by_cases hlt : r.preLen < s.preLen
    · rw [if_pos hlt]
      by_cases hsn : s.preLen = n
      · have hrn : ¬r.preLen = n := by omega
        simp [List.filter_cons, hsn, hrn, ih, hrn]
      · simp [List.filter_cons, hsn, ih]
    · rw [if_neg hlt]
      by_cases hrn : r.preLen = n <;> simp [List.filter_cons, hrn]

/-- The stable sort preserves the relative order of routes of equal prefix
length. -/
theorem filter_preLen_sortRoutes (l : List Route) (n : Nat) :
    (sortRoutes l).filter (fun x => x.preLen = n)
      = l.filter (fun x => x.preLen = n) := by
  induction l with
  | nil => rfl
  | cons r rest ih =>
    rw [sortRoutes, filter_preLen_insertRoute]
    by_cases hrn : r.preLen = n <;> simp [List.filter_cons, hrn, ih]

/-- A successful build parses exactly the mappings, in input order. -/
theorem buildRoutes_ok_eq_filterMap (ms : List Str) (seen : List Str) (rs : List Route)
    (hok : buildRoutes seen ms = .ok rs) :
    rs = ms.filterMap fun m => (parseProxyMapping m).toOption := by
  induction ms generalizing seen rs with
  | nil =>
    rw [buildRoutes] at hok
    cases hok
    rfl
  | cons m rest ih =>
    rw [buildRoutes] at hok
    cases hp : parseProxyMapping m with
    | error e => simp only [hp] at hok; cases hok
    | ok route =>
      simp only [hp] at hok
      by_cases hc : seen.contains route.pathPrefix
      · rw [if_pos hc] at hok; cases hok
      · rw [if_neg hc] at hok
        cases hb : buildRoutes (route.pathPrefix :: seen) rest with
        | error e => simp only [hb] at hok; cases hok
        | ok routes' =>
          simp only [hb] at hok
          cases hok
          rw [List.filterMap_cons, hp]
          exact congrArg (route :: ·) (ih _ _ hb)

/-- A successful build has pairwise distinct prefixes, none of them already
seen. -/
theorem buildRoutes_ok_nodup (ms : List Str) (seen : List Str) (rs : List Route)
    (hok : buildRoutes seen ms = .ok rs) :
    (rs.map Route.pathPrefix).Nodup ∧ ∀ r ∈ rs, r.pathPrefix ∉ seen := by
  induction ms generalizing seen rs with
  | nil =>
    rw [buildRoutes] at hok
    cases hok
    exact ⟨List.nodup_nil, by simp⟩
  | cons m rest ih =>
    rw [buildRoutes] at hok
    cases hp : parseProxyMapping m with
    | error e => simp only [hp] at hok; cases hok
    | ok route =>
      simp only [hp] at hok
      by_cases hc : seen.contains route.pathPrefix
      · rw [if_pos hc] at hok; cases hok
      · rw [if_neg hc] at hok
        cases hb : buildRoutes (route.pathPrefix :: seen) rest with
        | error e => simp only [hb] at hok; cases hok
        | ok routes' =>
          simp only [hb] at hok
          cases hok
          obtain ⟨hnd, hseen⟩ := ih _ _ hb
          constructor
          · rw [List.map_cons, List.nodup_cons]
            refine ⟨?_, hnd⟩
            intro hmem
            rcases List.mem_map.mp hmem with ⟨r, hr, hr'⟩
            exact (hseen r hr) (by rw [hr']; exact List.mem_cons_self _ _)
          · intro r hr
            rcases List.mem_cons.mp hr with hr' | hr'
            · subst hr'
              intro hmem
              exact hc (List.elem_iff.mpr hmem)
            · intro hmem
              exact (hseen r hr') (List.mem_cons_of_mem _ hmem)

/-- C2: every route table the build returns lists its routes in non-increasing
order of pathPrefix length, routes of equal prefix length keep their relative
input order (the sort is stable), and no two stored routes share a
pathPrefix. -/
theorem route_table_sorted_stable_nodup (ms : List Str) (rt : ProxyRoutes)
    (hok : NewProxyRoutes ms = .ok rt) :
    rt.routes.Pairwise (fun a b => b.preLen ≤ a.preLen)
    ∧ (∀ n, rt.routes.filter (fun r => r.preLen = n)
        = (ms.filterMap fun m => (parseProxyMapping m).toOption).filter
            (fun r => r.preLen = n))
    ∧ (rt.routes.map Route.pathPrefix).Nodup := by
  rw [NewProxyRoutes] at hok
  by_cases hms : ms = []
  · rw [if_pos hms] at hok
    cases hok
    subst hms
    exact ⟨List.Pairwise.nil, by intro n; rfl, List.nodup_nil⟩
  · rw [if_neg hms] at hok
    cases hb : buildRoutes [] ms with
    | error e => simp only [hb] at hok; cases hok
    | ok parsedRoutes =>
      simp only [hb] at hok
      cases hok
      have hparsed := buildRoutes_ok_eq_filterMap ms [] parsedRoutes hb
      refine ⟨sortRoutes_sorted parsedRoutes, ?_, ?_⟩
      · intro n
        rw [filter_preLen_sortRoutes, hparsed]
      · have hnd := (buildRoutes_ok_nodup ms [] parsedRoutes hb).1
        exact (((sortRoutes_perm parsedRoutes).map Route.pathPrefix).symm).nodup hnd

/-- Witness for C2: the two-mapping example table is sorted with distinct
prefixes. -/
theorem route_table_sorted_stable_nodup_witness :
    ([exampleInternalRoute, exampleApiRoute] : List Route).Pairwise
        (fun a b => b.preLen ≤ a.preLen)
    ∧ (([exampleInternalRoute, exampleApiRoute] : List Route).map
        Route.pathPrefix).Nodup := by
  have h := route_table_sorted_stable_nodup
    [("/api=http://backend-a").data, ("/api/internal=http://backend-b").data]
    ⟨[exampleInternalRoute, exampleApiRoute]⟩ (by rfl)
  exact ⟨h.1, h.2.2⟩

/-- C8 (bug): the statusRecorder wrapper never satisfies http.Hijacker,
whatever the underlying response writer's method set (embedding an interface
promotes only the interface's declared methods), so a WebSocket tunnel reached
through the logging wrapper always fails with the 500 capability error even
when the underlying writer supports the takeover. -/
theorem statusRecorder_never_hijacker (underlyingMethods : List Str) :
    statusRecorderSupportsHijacker underlyingMethods = false
    ∧ implementsIface (("Hijack").data :: responseWriterMethods) hijackerMethods = true
    ∧ handleWebSocket
        { dialOk := true
          supportsHijacker := statusRecorderSupportsHijacker underlyingMethods
          hijackOk := true, writeUpgradeOk := true
          readResponseOk := true, writeResponseOk := true }
        = { httpStatus := some 500, hijackAttempted := false
            backendWriteAttempted := false, relayStarted := false } := by
  refine ⟨rfl, rfl, ?_⟩
  have h : statusRecorderSupportsHijacker underlyingMethods = false := rfl
  rw [h]
  rfl

theorem parseProxyBackendURL_cases (b : Str) :
    (∃ u, parseProxyBackendURL b = .ok u)
    ∨ (∃ msg, parseProxyBackendURL b = .error (.invalidProxyRoute msg)) := by
  unfold parseProxyBackendURL
  repeat' split
  all_goals first
    | exact Or.inr ⟨_, rfl⟩
    | exact Or.inl ⟨_, rfl⟩

theorem parseProxyMapping_cases (m : Str) :
    (∃ r, parseProxyMapping m = .ok r)
    ∨ (∃ msg, parseProxyMapping m = .error (.invalidProxyRoute msg)) := by
  rw [parseProxyMapping]
  split
  · exact Or.inr ⟨_, rfl⟩
  split
  · exact Or.inr ⟨_, rfl⟩
  next l rr heq =>
  rw [newProxyRoute]
  split
  · exact Or.inr ⟨_, rfl⟩
  split
  · exact Or.inr ⟨_, rfl⟩
  rcases parseProxyBackendURL_cases (trimSpace rr) with ⟨u, hu⟩ | ⟨msg, hmsg⟩
  · rw [hu]
    exact Or.inl ⟨_, rfl⟩
  · rw [hmsg]
    exact Or.inr ⟨_, rfl⟩

theorem parseProxyBackendURL_ok_conditions (b : Str) (u : GoURL)
    (hok : parseProxyBackendURL b = .ok u) :
    trimSpace b ≠ []
    ∧ goURLParse b = some u
    ∧ (equalFold u.scheme ("http").data = true ∨ equalFold u.scheme ("https").data = true)
    ∧ u.host ≠ []
    ∧ goHasSuffix u.host [':'] = false
    ∧ containsSub (stripPort u.host) ['/', '/'] = false
    ∧ stripPort u.host ≠ [] := by
  rw [parseProxyBackendURL] at hok
  split at hok
  · cases hok
  next h0 =>
  split at hok
  · cases hok
  next u' hurl =>
  split at hok
  · cases hok
  next h1 =>
  split at hok
  · cases hok
  next h2 =>
  split at hok
  · cases hok
  next h3 =>
  cases hok
  rw [not_not] at h1
  rw [not_or, not_or] at h3
  refine ⟨h0, hurl, h1, h2, ?_, ?_, h3.1⟩
  · simpa using h3.2.1
  · simpa using h3.2.2

theorem parseProxyMapping_ok_conditions (m : Str) (r : Route)
    (hok : parseProxyMapping m = .ok r) :
    ∃ l rr u, splitOnceChar '=' (trimSpace m) = some (l, rr)
      ∧ trimSpace l ≠ []
      ∧ goHasPre (trimSpace l) ['/'] = true
      ∧ trimSpace rr ≠ []
      ∧ goURLParse (trimSpace rr) = some u
      ∧ (equalFold u.scheme ("http").data = true ∨ equalFold u.scheme ("https").data = true)
      ∧ u.host ≠ []
      ∧ goHasSuffix u.host [':'] = false
      ∧ containsSub (stripPort u.host) ['/', '/'] = false := by
  rw [parseProxyMapping] at hok
  split at hok
  · cases hok
  next h0 =>
  split at hok
  · cases hok
  next l rr hsplit =>
  rw [newProxyRoute] at hok
  split at hok
  · cases hok
  next h1 =>
  split at hok
  · cases hok
  next h2 =>
  cases hb : parseProxyBackendURL (trimSpace rr) with
  | error e => simp only [hb] at hok; cases hok
  | ok u =>
    simp only [hb] at hok
    cases hok
    obtain ⟨hb0, hb1, hb2, hb3, hb4, hb5, _⟩ := parseProxyBackendURL_ok_conditions _ _ hb
    rw [not_not] at h2
    refine ⟨l, rr, u, hsplit, h1, h2, ?_, hb1, hb2, hb3, hb4, hb5⟩
    intro hempty
    exact hb0 (by rw [hempty]; rfl)

/-- C6: every mapping that is missing "=", has an empty trimmed path prefix
or one not starting with "/", an empty backend URL, a scheme other than
http/https, an empty host, a host with a bare trailing colon, or a hostname
containing "//", fails route construction with the single-mapping error kind
ErrInvalidProxyRoute. -/
theorem invalid_mapping_single_error_kind (m : Str)
    (hbad :
      splitOnceChar '=' (trimSpace m) = none
      ∨ (∃ l rr, splitOnceChar '=' (trimSpace m) = some (l, rr) ∧ trimSpace l = [])
      ∨ (∃ l rr, splitOnceChar '=' (trimSpace m) = some (l, rr)
          ∧ goHasPre (trimSpace l) ['/'] = false)
      ∨ (∃ l rr, splitOnceChar '=' (trimSpace m) = some (l, rr) ∧ trimSpace rr = [])
      ∨ (∃ l rr u, splitOnceChar '=' (trimSpace m) = some (l, rr)
          ∧ goURLParse (trimSpace rr) = some u
          ∧ equalFold u.scheme ("http").data = false
          ∧ equalFold u.scheme ("https").data = false)
      ∨ (∃ l rr u, splitOnceChar '=' (trimSpace m) = some (l, rr)
          ∧ goURLParse (trimSpace rr) = some u ∧ u.host = [])
      ∨ (∃ l rr u, splitOnceChar '=' (trimSpace m) = some (l, rr)
          ∧ goURLParse (trimSpace rr) = some u ∧ goHasSuffix u.host [':'] = true)
      ∨ (∃ l rr u, splitOnceChar '=' (trimSpace m) = some (l, rr)
          ∧ goURLParse (trimSpace rr) = some u
          ∧ containsSub (stripPort u.host) ['/', '/'] = true)) :
    ∃ msg, parseProxyMapping m = .error (.invalidProxyRoute msg) := by
  rcases parseProxyMapping_cases m with ⟨r, hok⟩ | herr
  · exfalso
    obtain ⟨l, rr, u, hsplit, h1, h2, h3, hu, h5, h6, h7, h8⟩ :=
      parseProxyMapping_ok_conditions m r hok
    rcases hbad with h | h | h | h | h | h | h | h
    · rw [h] at hsplit
      cases hsplit
    · obtain ⟨l', rr', hs', hcond⟩ := h
      rw [hs'] at hsplit
      cases hsplit
      exact h1 hcond
    · obtain ⟨l', rr', hs', hcond⟩ := h
      rw [hs'] at hsplit
      cases hsplit
      rw [h2] at hcond
      cases hcond
    · obtain ⟨l', rr', hs', hcond⟩ := h
      rw [hs'] at hsplit
      cases hsplit
      exact h3 hcond
    · obtain ⟨l', rr', u', hs', hu', hc1, hc2⟩ := h
      rw [hs'] at hsplit
      cases hsplit
      rw [hu] at hu'
      cases hu'
      rcases h5 with h5 | h5
      · rw [h5] at hc1
        cases hc1
      · rw [h5] at hc2
        cases hc2
    · obtain ⟨l', rr', u', hs', hu', hcond⟩ := h
      rw [hs'] at hsplit
      cases hsplit
      rw [hu] at hu'
      cases hu'
      exact h6 hcond
    · obtain ⟨l', rr', u', hs', hu', hcond⟩ := h
      rw [hs'] at hsplit
      cases hsplit
      rw [hu] at hu'
      cases hu'
      rw [h7] at hcond
      cases hcond
    · obtain ⟨l', rr', u', hs', hu', hcond⟩ := h
      rw [hs'] at hsplit
      cases hsplit
      rw [hu] at hu'
      cases hu'
      rw [h8] at hcond
      cases hcond
  · exact herr

/-- Witness for C6: the mapping "/api=ftp://host" (bad scheme) fails with the
single-mapping error kind. -/
theorem invalid_mapping_single_error_kind_witness :
    ∃ msg, parseProxyMapping ("/api=ftp://host").data
      = .error (.invalidProxyRoute msg) := by
  refine invalid_mapping_single_error_kind (("/api=ftp://host").data) ?_
  refine Or.inr (Or.inr (Or.inr (Or.inr (Or.inl ?_))))
  exact ⟨("/api").data, ("ftp://host").data, ⟨("ftp").data, ("host").data⟩,
    by decide, by decide, by decide, by decide⟩

/-- Counterexample to C7 as stated: the list "/a=http://h1", "/a=http://h2",
"bad" contains a syntactically invalid mapping, yet construction fails with
the duplicate-prefix kind ErrInvalidProxyRoutes, because the duplicate "/a" is
detected before the invalid third mapping is ever parsed. -/
theorem duplicate_then_invalid_yields_routes_error :
    NewProxyRoutes [("/a=http://h1").data, ("/a=http://h2").data, ("bad").data]
        = .error (.invalidProxyRoutes ("duplicate path prefix").data)
    ∧ (∃ msg, parseProxyMapping ("bad").data = .error (.invalidProxyRoute msg))
    ∧ parseProxyMapping ("/a=http://h1").data
        = .ok ⟨("/a").data, ⟨("http").data, ("h1").data⟩⟩
    ∧ parseProxyMapping ("/a=http://h2").data
        = .ok ⟨("/a").data, ⟨("http").data, ("h2").data⟩⟩ :=
  ⟨rfl, ⟨_, rfl⟩, rfl, rfl⟩

theorem buildRoutes_append_bad (good : List Str) (bad : Str) (rest : List Str)
    (seen : List Str) (e : ProxyError)
    (hgood : ∀ m ∈ good, ∃ r, parseProxyMapping m = .ok r)
    (hnodup : ((good.filterMap fun m => (parseProxyMapping m).toOption).map
        Route.pathPrefix).Nodup)
    (hdisj : ∀ p ∈ (good.filterMap fun m => (parseProxyMapping m).toOption).map
        Route.pathPrefix, p ∉ seen)
    (hbad : parseProxyMapping bad = .error e) :
    buildRoutes seen (good ++ bad :: rest) = .error e := by
  induction good generalizing seen with
  | nil =>
    rw [List.nil_append, buildRoutes]
    simp only [hbad]
  | cons m good' ih =>
    obtain ⟨r, hr⟩ := hgood m (List.mem_cons_self m good')
    have hfm : (List.filterMap (fun m => (parseProxyMapping m).toOption) (m :: good'))
        = r :: List.filterMap (fun m => (parseProxyMapping m).toOption) good' := by
      rw [List.filterMap_cons, hr]
      rfl
    rw [hfm, List.map_cons] at hnodup hdisj
    rw [List.cons_append, buildRoutes]
    simp only [hr]
    rw [if_neg ?hc]
    case hc =>
      intro hcon
      exact hdisj r.pathPrefix (List.mem_cons_self _ _) (List.elem_iff.mp hcon)
    rw [ih (r.pathPrefix :: seen)
      (fun x hx => hgood x (List.mem_cons_of_mem m hx))
      (List.nodup_cons.mp hnodup).2
      ?hdisj]
    case hdisj =>
      intro p hp hmem
      rcases List.mem_cons.mp hmem with h' | h'
      · exact (List.nodup_cons.mp hnodup).1 (h' ▸ hp)
      · exact hdisj p (List.mem_cons_of_mem _ hp) h'

theorem buildRoutes_duplicate_split (ms : List Str) (seen : List Str) (msg : Str)
    (herr : buildRoutes seen ms = .error (.invalidProxyRoutes msg)) :
    ∃ ms₁ d ms₂, ms = ms₁ ++ d :: ms₂
      ∧ (∀ m ∈ ms₁, ∃ r, parseProxyMapping m = .ok r)
      ∧ ∃ r, parseProxyMapping d = .ok r
        ∧ (r.pathPrefix ∈ seen
           ∨ r.pathPrefix ∈ ((ms₁.filterMap fun m => (parseProxyMapping m).toOption).map
              Route.pathPrefix)) := by
  induction ms generalizing seen with
  | nil => rw [buildRoutes] at herr; cases herr
  | cons m rest ih =>
    rw [buildRoutes] at herr
    cases hp : parseProxyMapping m with
    | error e =>
      simp only [hp] at herr
      cases herr
      rcases parseProxyMapping_cases m with ⟨r, hr⟩ | ⟨msg', hmsg'⟩
      · rw [hp] at hr
        cases hr
      · rw [hp] at hmsg'
        cases hmsg'
    | ok route =>
      simp only [hp] at herr
      by_cases hc : seen.contains route.pathPrefix
      · refine ⟨[], m, rest, rfl, by simp, route, hp, Or.inl (List.elem_iff.mp hc)⟩
      · rw [if_neg hc] at herr
        cases hb : buildRoutes (route.pathPrefix :: seen) rest with
        | error e' =>
          simp only [hb] at herr
          cases herr
          obtain ⟨ms₁, d, ms₂, hsplit, hgoodpre, r, hr, hmem⟩ := ih _ hb
          refine ⟨m :: ms₁, d, ms₂, by rw [hsplit, List.cons_append], ?_, r, hr, ?_⟩
          · intro x hx
            rcases List.mem_cons.mp hx with hx' | hx'
            · exact hx' ▸ ⟨route, hp⟩
            · exact hgoodpre x hx'
          · have hfm : (List.filterMap (fun m => (parseProxyMapping m).toOption) (m :: ms₁))
                = route :: List.filterMap (fun m => (parseProxyMapping m).toOption) ms₁ := by
              rw [List.filterMap_cons, hp]
              rfl
            rcases hmem with hmem | hmem
            · rcases List.mem_cons.mp hmem with h' | h'
              · right
                rw [hfm, List.map_cons, h']
                exact List.mem_cons_self _ _
              · exact Or.inl h'
            · right
              rw [hfm, List.map_cons]
              exact List.mem_cons_of_mem _ hmem
        | ok routes' =>
          simp only [hb] at herr
          cases herr

/-- C7 (amended): validation is interleaved, mapping by mapping.  A
syntactically invalid mapping yields ErrInvalidProxyRoute when every mapping
before it parses and no prefix is duplicated before it; and whenever
construction fails with ErrInvalidProxyRoutes, all mappings up to and
including the duplicate-completing one parse successfully (not necessarily
the whole list). -/
theorem routes_error_precedence (good : List Str) (bad : Str) (rest : List Str)
    (hgood : ∀ m ∈ good, ∃ r, parseProxyMapping m = .ok r)
    (hnodup : ((good.filterMap fun m => (parseProxyMapping m).toOption).map
        Route.pathPrefix).Nodup)
    (hbad : ∃ e, parseProxyMapping bad = .error e) :
    (∃ msg, NewProxyRoutes (good ++ bad :: rest) = .error (.invalidProxyRoute msg))
    ∧ (∀ ms msg, NewProxyRoutes ms = .error (.invalidProxyRoutes msg) →
        ∃ ms₁ d ms₂, ms = ms₁ ++ d :: ms₂
          ∧ (∀ m ∈ ms₁, ∃ r, parseProxyMapping m = .ok r)
          ∧ ∃ r, parseProxyMapping d = .ok r
            ∧ r.pathPrefix ∈ ((ms₁.filterMap fun m => (parseProxyMapping m).toOption).map
                Route.pathPrefix)) := by
  constructor
  · obtain ⟨e, he⟩ := hbad
    obtain ⟨msg, hmsg⟩ : ∃ msg, parseProxyMapping bad = .error (.invalidProxyRoute msg) := by
      rcases parseProxyMapping_cases bad with ⟨r, hr⟩ | h
      · rw [he] at hr
        cases hr
      · exact h
    refine ⟨msg, ?_⟩
    rw [NewProxyRoutes, if_neg (by simp)]
    rw [buildRoutes_append_bad good bad rest [] _ hgood hnodup (by simp) hmsg]
  · intro ms msg hms
    rw [NewProxyRoutes] at hms
    split at hms
    · cases hms
    cases hb : buildRoutes [] ms with
    | error e =>
      simp only [hb] at hms
      cases hms
      obtain ⟨ms₁, d, ms₂, hsplit, hgoodpre, r, hr, hmem⟩ :=
        buildRoutes_duplicate_split ms [] msg hb
      refine ⟨ms₁, d, ms₂, hsplit, hgoodpre, r, hr, ?_⟩
      rcases hmem with hmem | hmem
      · cases hmem
      · exact hmem
    | ok routes' =>
      simp only [hb] at hms
      cases hms

/-- Witness for C7 (amended): an invalid mapping after one clean mapping
yields the single-mapping error kind. -/
theorem routes_error_precedence_witness :
    ∃ msg, NewProxyRoutes [("/a=http://h1").data, ("bad").data]
      = .error (.invalidProxyRoute msg) := by
  have h := routes_error_precedence [("/a=http://h1").data] ("bad").data []
    (by
      intro m hm
      rw [List.mem_singleton] at hm
      subst hm
      exact ⟨_, rfl⟩)
    (by decide)
    ⟨_, rfl⟩
  exact h.1

theorem lowerChar_eq_dot_iff (c : Char) : lowerChar c = '.' ↔ c = '.' := by
  unfold lowerChar
  split
  all_goals first
    | exact Iff.rfl
    | (constructor <;> (intro h; exfalso; revert h; decide))

theorem splitOnceChar_dot_map_lowerChar (s : Str) :
    splitOnceChar '.' (s.map lowerChar)
      = (splitOnceChar '.' s).map fun p => (p.1.map lowerChar, p.2.map lowerChar) := by
  induction s with
  | nil => rfl
  | cons c rest ih =>
    rw [List.map_cons, splitOnceChar, splitOnceChar]
    by_cases hc : c = '.'
    · rw [if_pos ((lowerChar_eq_dot_iff c).mpr hc), if_pos hc]
      rfl
    · rw [if_neg (fun h => hc ((lowerChar_eq_dot_iff c).mp h)), if_neg hc, ih]
      cases splitOnceChar '.' rest with
      | none => rfl
      | some p => rfl

theorem extOf_map_lowerChar (nm : Str) :
    isMarkdownFile.extOf (nm.map lowerChar) = (isMarkdownFile.extOf nm).map lowerChar := by
  unfold isMarkdownFile.extOf
  rw [← List.map_reverse, splitOnceChar_dot_map_lowerChar]
  cases splitOnceChar '.' nm.reverse with
  | none => rfl
  | some p =>
    obtain ⟨l, r⟩ := p
    simp [List.map_reverse, show lowerChar '.' = '.' from rfl]

theorem isMarkdownFile_of_equalFold_readme (nm : Str)
    (h : equalFold nm ("README.md").data = true) :
    isMarkdownFile nm = true := by
  rw [equalFold, decide_eq_true_eq, toLowerAscii, toLowerAscii] at h
  have h' : nm.map lowerChar = ("readme.md").data := by
    rw [h]
    rfl
  rw [isMarkdownFile, equalFold, decide_eq_true_eq, toLowerAscii, toLowerAscii,
    ← extOf_map_lowerChar, h']
  rfl

theorem selectCandidateLoop_readme (entries : List DirEntry) (acc : List DirEntry)
    (hx : ∃ e ∈ entries, e.isDir = false ∧ equalFold e.name ("README.md").data = true) :
    ∃ e', selectCandidateLoop acc entries = some e'
      ∧ e' ∈ entries ∧ e'.isDir = false
      ∧ equalFold e'.name ("README.md").data = true := by
  induction entries generalizing acc with
  | nil =>
    obtain ⟨e, he, _⟩ := hx
    cases he
  | cons e rest ih =>
    have htail : (∃ x ∈ e :: rest, x.isDir = false ∧ equalFold x.name ("README.md").data = true) →
        (e.isDir = true ∨ equalFold e.name ("README.md").data = false) →
        ∃ x ∈ rest, x.isDir = false ∧ equalFold x.name ("README.md").data = true := by
      rintro ⟨x, hxmem, h1, h2⟩ hor
      rcases List.mem_cons.mp hxmem with h | h
      · subst h
        rcases hor with hor | hor
        · rw [hor] at h1
          cases h1
        · rw [hor] at h2
          cases h2
      · exact ⟨x, h, h1, h2⟩
    rw [selectCandidateLoop]
    by_cases hd : e.isDir = true
    · rw [if_pos hd]
      obtain ⟨e', h1, h2, h3, h4⟩ := ih acc (htail hx (Or.inl hd))
      exact ⟨e', h1, List.mem_cons_of_mem e h2, h3, h4⟩
    · rw [if_neg hd]
      by_cases hmd : isMarkdownFile e.name = true
      · rw [if_neg (by rw [hmd]; intro hcon; exact hcon rfl)]
        by_cases hrm : equalFold e.name ("README.md").data = true
        · rw [if_pos hrm]
          exact ⟨e, rfl, List.mem_cons_self e rest,
            Bool.eq_false_iff.mpr hd, hrm⟩
        · rw [if_neg hrm]
          obtain ⟨e', h1, h2, h3, h4⟩ :=
            ih (acc ++ [e]) (htail hx (Or.inr (Bool.eq_false_iff.mpr hrm)))
          exact ⟨e', h1, List.mem_cons_of_mem e h2, h3, h4⟩
      · rw [if_pos (fun hcon => hmd hcon)]
        have hrm : equalFold e.name ("README.md").data = false := by
          rw [Bool.eq_false_iff]
          intro hcon
          exact hmd (isMarkdownFile_of_equalFold_readme e.name hcon)
        obtain ⟨e', h1, h2, h3, h4⟩ := ih acc (htail hx (Or.inr hrm))
        exact ⟨e', h1, List.mem_cons_of_mem e h2, h3, h4⟩

theorem selectCandidateLoop_no_readme (entries : List DirEntry) (acc : List DirEntry)
    (hno : ∀ e ∈ entries, e.isDir = false → equalFold e.name ("README.md").data = false) :
    selectCandidateLoop acc entries
      = (if (acc ++ entries.filter fun e => !e.isDir && isMarkdownFile e.name).length = 1
         then (acc ++ entries.filter fun e => !e.isDir && isMarkdownFile e.name).head?
         else none) := by
  induction entries generalizing acc with
  | nil => simp [selectCandidateLoop]
  | cons e rest ih =>
    rw [selectCandidateLoop]
    by_cases hd : e.isDir = true
    · rw [if_pos hd]
      rw [ih acc (fun x hx => hno x (List.mem_cons_of_mem e hx))]
      simp [List.filter_cons, hd]
    · rw [if_neg hd]
      by_cases hmd : isMarkdownFile e.name = true
      · rw [if_neg (by rw [hmd]; intro hcon; exact hcon rfl)]
        have hrm : equalFold e.name ("README.md").data = false :=
          hno e (List.mem_cons_self e rest) (Bool.eq_false_iff.mpr hd)
        rw [if_neg (by rw [hrm]; intro hcon; cases hcon)]
        rw [ih (acc ++ [e]) (fun x hx => hno x (List.mem_cons_of_mem e hx))]
        have hfe : (e :: rest).filter (fun x => !x.isDir && isMarkdownFile x.name)
            = e :: rest.filter (fun x => !x.isDir && isMarkdownFile x.name) := by
          rw [List.filter_cons, if_pos]
          rw [Bool.and_eq_true]
          exact ⟨by rw [Bool.eq_false_iff.mpr hd]; rfl, hmd⟩
        rw [hfe, List.append_assoc]
        rfl
      · rw [if_pos (fun hcon => hmd hcon)]
        rw [ih acc (fun x hx => hno x (List.mem_cons_of_mem e hx))]
        have hfe : (e :: rest).filter (fun x => !x.isDir && isMarkdownFile x.name)
            = rest.filter (fun x => !x.isDir && isMarkdownFile x.name) := by
          rw [List.filter_cons, if_neg]
          intro hcon
          rw [Bool.and_eq_true] at hcon
          exact hmd hcon.2
        rw [hfe]

/-- C5: in non-browse Markdown-enabled mode, for a trailing-slash request
resolving to a directory: an existing literal index.html or index.htm makes
the request fall through to the static handler (index wins over Markdown
substitution); otherwise a case-insensitive README.md in the directory is
rendered and served; otherwise a unique other Markdown file is rendered and
served; otherwise the response is 403 when directory listing is disabled and
the request falls through to the static handler when it is not. -/
theorem markdown_directory_dispatch (fs : FS) (p : Str) (entries : List DirEntry)
    (disableListing : Bool)
    (hslash : goHasSuffix p ['/'] = true)
    (hdir : fsOpen fs p = some (.dir entries))
    (hfiles : ∀ e ∈ entries, e.isDir = false →
        ∃ nm, fsOpen fs (goPathJoin p e.name) = some (.file nm)) :
    (directoryIndexExists fs p = true →
      buildFileHandler ⟨true, false, disableListing, []⟩ fs p = .staticServe)
    ∧ (directoryIndexExists fs p = false →
        (∃ e ∈ entries, e.isDir = false ∧ equalFold e.name ("README.md").data = true) →
        ∃ e, e ∈ entries ∧ e.isDir = false ∧ equalFold e.name ("README.md").data = true
          ∧ buildFileHandler ⟨true, false, disableListing, []⟩ fs p
              = .markdownRendered (goPathJoin p e.name))
    ∧ (directoryIndexExists fs p = false →
        (∀ e ∈ entries, e.isDir = false → equalFold e.name ("README.md").data = false) →
        ∀ e, (entries.filter fun x => !x.isDir && isMarkdownFile x.name) = [e] →
        buildFileHandler ⟨true, false, disableListing, []⟩ fs p
          = .markdownRendered (goPathJoin p e.name))
    ∧ (directoryIndexExists fs p = false →
        (∀ e ∈ entries, e.isDir = false → equalFold e.name ("README.md").data = false) →
        (entries.filter fun x => !x.isDir && isMarkdownFile x.name).length ≠ 1 →
        buildFileHandler ⟨true, false, disableListing, []⟩ fs p
          = (if disableListing = true then .forbidden else .staticServe)) := by
  have hchain : buildFileHandler ⟨true, false, disableListing, []⟩ fs p
      = serveDirectory fs disableListing true (fun _ => .staticServe) p entries := by
    show markdownServeHTTP fs disableListing true (fun _ => .staticServe) p
        = serveDirectory fs disableListing true (fun _ => .staticServe) p entries
    unfold markdownServeHTTP
    rw [hdir]
  refine ⟨?_, ?_, ?_, ?_⟩
  · intro hidx
    rw [hchain, serveDirectory, if_neg (by rw [hslash]; intro hcon; exact hcon rfl),
      if_neg (by intro hcon; exact hcon rfl), if_pos hidx]
  · intro hidx hreadme
    obtain ⟨e, hloop, hmem, hnd, hrm⟩ := selectCandidateLoop_readme entries [] hreadme
    refine ⟨e, hmem, hnd, hrm, ?_⟩
    rw [hchain, serveDirectory, if_neg (by rw [hslash]; intro hcon; exact hcon rfl),
      if_neg (by intro hcon; exact hcon rfl), if_neg (by rw [hidx]; intro hcon; cases hcon)]
    rw [selectMarkdownCandidate, hloop]
    obtain ⟨nm, hnm⟩ := hfiles e hmem hnd
    unfold serveMarkdownFile
    simp only [hnm]
  · intro hidx hno e hfilter
    rw [hchain, serveDirectory, if_neg (by rw [hslash]; intro hcon; exact hcon rfl),
      if_neg (by intro hcon; exact hcon rfl), if_neg (by rw [hidx]; intro hcon; cases hcon)]
    rw [selectMarkdownCandidate, selectCandidateLoop_no_readme entries [] hno]
    rw [List.nil_append, hfilter]
    rw [if_pos (show (([e] : List DirEntry).length = 1) from rfl)]
    have hmem : e ∈ entries := by
      have : e ∈ entries.filter fun x => !x.isDir && isMarkdownFile x.name := by
        rw [hfilter]
        exact List.mem_singleton_self e
      exact List.mem_of_mem_filter this
    have hnd : e.isDir = false := by
      have : e ∈ entries.filter fun x => !x.isDir && isMarkdownFile x.name := by
        rw [hfilter]
        exact List.mem_singleton_self e
      have hpe := List.of_mem_filter this
      rw [Bool.and_eq_true] at hpe
      rw [← Bool.not_eq_true]
      intro hcon
      rw [hcon] at hpe
      cases hpe.1
    obtain ⟨nm, hnm⟩ := hfiles e hmem hnd
    show serveMarkdownFile fs (fun _ => ServeOutcome.staticServe) p (goPathJoin p e.name)
        = ServeOutcome.markdownRendered (goPathJoin p e.name)
    unfold serveMarkdownFile
    simp only [hnm]
  · intro hidx hno hcount
    rw [hchain, serveDirectory, if_neg (by rw [hslash]; intro hcon; exact hcon rfl),
      if_neg (by intro hcon; exact hcon rfl), if_neg (by rw [hidx]; intro hcon; cases hcon)]
    rw [selectMarkdownCandidate, selectCandidateLoop_no_readme entries [] hno]
    rw [List.nil_append, if_neg hcount]

theorem splitChar_ne_nil (sep : Char) (s : Str) : splitChar sep s ≠ [] := by
  induction s with
  | nil => simp [splitChar]
  | cons c rest ih =>
    rw [splitChar]
    cases h : splitChar sep rest with
    | nil => simp
    | cons p ps => by_cases hc : c = sep <;> simp [hc]

theorem not_mem_of_mem_splitChar (sep : Char) (s : Str) :
    ∀ seg ∈ splitChar sep s, sep ∉ seg := by
  induction s with
  | nil =>
    intro seg h
    rw [splitChar, List.mem_singleton] at h
    subst h
    simp
  | cons c rest ih =>
    intro seg h
    rw [splitChar] at h
    cases hs : splitChar sep rest with
    | nil => exact absurd hs (splitChar_ne_nil sep rest)
    | cons p ps =>
      simp only [hs] at h
      by_cases hc : c = sep
      · rw [if_pos hc] at h
        rcases List.mem_cons.mp h with h' | h'
        · subst h'
          simp
        · exact ih seg (hs ▸ h')
      · rw [if_neg hc] at h
        rcases List.mem_cons.mp h with h' | h'
        · subst h'
          intro hmem
          rcases List.mem_cons.mp hmem with h'' | h''
          · exact hc h''.symm
          · exact ih p (hs ▸ List.mem_cons_self p ps) h''
        · exact ih seg (hs ▸ List.mem_cons_of_mem p h')

theorem splitChar_of_not_mem (sep : Char) (s : Str) (h : sep ∉ s) :
    splitChar sep s = [s] := by
  induction s with
  | nil => rfl
  | cons c rest ih =>
    rw [splitChar]
    simp only [ih (fun hm => h (List.mem_cons_of_mem c hm))]
    rw [if_neg (fun hc => h (by rw [← hc]; exact List.mem_cons_self c rest))]

theorem splitChar_append_sep (sep : Char) (x t : Str) (hx : sep ∉ x) :
    splitChar sep (x ++ sep :: t) = x :: splitChar sep t := by
  induction x with
  | nil =>
    rw [List.nil_append, splitChar]
    cases hs : splitChar sep t with
    | nil => exact absurd hs (splitChar_ne_nil sep t)
    | cons p ps => simp [hs]
  | cons c x' ih =>
    rw [List.cons_append, splitChar]
    simp only [ih (fun hm => hx (List.mem_cons_of_mem c hm))]
    rw [if_neg (fun hc => hx (by rw [← hc]; exact List.mem_cons_self c x'))]

theorem splitChar_joinChar (sep : Char) (xs : List Str)
    (hxs : ∀ x ∈ xs, sep ∉ x) (hne : xs ≠ []) :
    splitChar sep (joinChar sep xs) = xs := by
  induction xs with
  | nil => exact absurd rfl hne
  | cons x rest ih =>
    cases rest with
    | nil =>
      rw [joinChar]
      exact splitChar_of_not_mem sep x (hxs x (List.mem_singleton_self x))
    | cons y rest' =>
      rw [joinChar, splitChar_append_sep sep x _ (hxs x (List.mem_cons_self _ _))]
      have hrec := ih (fun z hz => hxs z (List.mem_cons_of_mem x hz)) (List.cons_ne_nil y rest')
      rw [hrec]
      exact List.cons_ne_nil y rest'

theorem mem_dropParent (rooted : Bool) (acc : List Str) :
    ∀ a ∈ dropParent rooted acc, a ∈ acc ∨ a = ['.', '.'] := by
  intro a ha
  cases acc with
  | nil =>
    rw [dropParent] at ha
    cases rooted with
    | true =>
      rw [if_pos rfl] at ha
      cases ha
    | false =>
      rw [if_neg (by intro hcon; cases hcon)] at ha
      rw [List.mem_singleton] at ha
      exact Or.inr ha
  | cons t acc' =>
    rw [dropParent] at ha
    by_cases h3 : t = ['.', '.']
    · rw [if_pos h3] at ha
      rcases List.mem_cons.mp ha with h' | h'
      · exact Or.inr h'
      · exact Or.inl h'
    · rw [if_neg h3] at ha
      exact Or.inl (List.mem_cons_of_mem t ha)

theorem dropParent_rooted_no_dots (acc : List Str)
    (hacc : ∀ a ∈ acc, a ≠ ['.'] ∧ a ≠ ['.', '.']) :
    ∀ a ∈ dropParent true acc, a ≠ ['.'] ∧ a ≠ ['.', '.'] := by
  intro a ha
  cases acc with
  | nil =>
    rw [dropParent, if_pos rfl] at ha
    cases ha
  | cons t acc' =>
    rw [dropParent] at ha
    by_cases h3 : t = ['.', '.']
    · exact absurd h3 (hacc t (List.mem_cons_self t acc')).2
    · rw [if_neg h3] at ha
      exact hacc a (List.mem_cons_of_mem t ha)

theorem mem_cleanSegs (rooted : Bool) (xs : List Str) :
    ∀ acc, ∀ seg ∈ cleanSegs rooted acc xs, seg ∈ acc ∨ seg ∈ xs ∨ seg = ['.', '.'] := by
  induction xs with
  | nil =>
    intro acc seg h
    rw [cleanSegs, List.mem_reverse] at h
    exact Or.inl h
  | cons s rest ih =>
    intro acc seg h
    rw [cleanSegs] at h
    by_cases h1 : s = [] ∨ s = ['.']
    · rw [if_pos h1] at h
      rcases ih acc seg h with h' | h' | h'
      · exact Or.inl h'
      · exact Or.inr (Or.inl (List.mem_cons_of_mem s h'))
      · exact Or.inr (Or.inr h')
    · rw [if_neg h1] at h
      by_cases h2 : s = ['.', '.']
      · rw [if_pos h2] at h
        rcases ih (dropParent rooted acc) seg h with h' | h' | h'
        · rcases mem_dropParent rooted acc seg h' with h'' | h''
          · exact Or.inl h''
          · exact Or.inr (Or.inr h'')
        · exact Or.inr (Or.inl (List.mem_cons_of_mem s h'))
        · exact Or.inr (Or.inr h')
      · rw [if_neg h2] at h
        rcases ih (s :: acc) seg h with h' | h' | h'
        · rcases List.mem_cons.mp h' with h'' | h''
          · exact Or.inr (Or.inl (by rw [h'']; exact List.mem_cons_self s rest))
          · exact Or.inl h''
        · exact Or.inr (Or.inl (List.mem_cons_of_mem s h'))
        · exact Or.inr (Or.inr h')

theorem cleanSegs_rooted_no_dots (xs : List Str) :
    ∀ acc, (∀ a ∈ acc, a ≠ ['.'] ∧ a ≠ ['.', '.']) →
    ∀ seg ∈ cleanSegs true acc xs, seg ≠ ['.'] ∧ seg ≠ ['.', '.'] := by
  induction xs with
  | nil =>
    intro acc hacc seg h
    rw [cleanSegs, List.mem_reverse] at h
    exact hacc seg h
  | cons s rest ih =>
    intro acc hacc seg h
    rw [cleanSegs] at h
    by_cases h1 : s = [] ∨ s = ['.']
    · rw [if_pos h1] at h
      exact ih acc hacc seg h
    · rw [if_neg h1] at h
      by_cases h2 : s = ['.', '.']
      · rw [if_pos h2] at h
        exact ih (dropParent true acc) (dropParent_rooted_no_dots acc hacc) seg h
      · rw [if_neg h2] at h
        refine ih (s :: acc) ?_ seg h
        intro a ha
        rcases List.mem_cons.mp ha with h' | h'
        · rw [h']
          exact ⟨fun hc => h1 (Or.inr hc), h2⟩
        · exact hacc a h'

theorem pathClean_rooted (p : Str) (hp : p.head? = some '/') :
    (pathClean p).head? = some '/'
    ∧ ∀ seg ∈ splitChar '/' (pathClean p), seg ≠ ['.'] ∧ seg ≠ ['.', '.'] := by
  have hpne : p ≠ [] := by
    intro h
    rw [h] at hp
    cases hp
  have hclean : pathClean p
      = '/' :: joinChar '/' (cleanSegs true [] (splitChar '/' p)) := by
    rw [pathClean, if_neg hpne]
    simp [hp]
  rw [hclean]
  refine ⟨rfl, ?_⟩
  have hsegsafe : ∀ seg ∈ cleanSegs true [] (splitChar '/' p),
      seg ≠ ['.'] ∧ seg ≠ ['.', '.'] :=
    cleanSegs_rooted_no_dots (splitChar '/' p) [] (by simp)
  have hsegnoslash : ∀ seg ∈ cleanSegs true [] (splitChar '/' p), '/' ∉ seg := by
    intro seg hs
    rcases mem_cleanSegs true (splitChar '/' p) [] seg hs with h' | h' | h'
    · cases h'
    · exact not_mem_of_mem_splitChar '/' p seg h'
    · rw [h']
      simp
  intro seg hseg
  rw [splitChar] at hseg
  cases hj : splitChar '/' (joinChar '/' (cleanSegs true [] (splitChar '/' p))) with
  | nil => exact absurd hj (splitChar_ne_nil _ _)
  | cons q qs =>
    simp only [hj, if_pos rfl] at hseg
    rcases List.mem_cons.mp hseg with h' | h'
    · rw [h']
      constructor <;> (intro hcon; cases hcon)
    · rw [← hj] at h'
      cases hsegs : cleanSegs true [] (splitChar '/' p) with
      | nil =>
        rw [hsegs] at h'
        rw [show joinChar '/' ([] : List Str) = [] from rfl] at h'
        rw [show splitChar '/' ([] : Str) = [[]] from rfl] at h'
        rw [List.mem_singleton] at h'
        rw [h']
        constructor <;> (intro hcon; cases hcon)
      | cons z zs =>
        rw [hsegs] at h'
        rw [splitChar_joinChar '/' _ (fun x hx => hsegnoslash x (hsegs ▸ hx))
          (List.cons_ne_nil _ _)] at h'
        exact hsegsafe seg (hsegs ▸ h')

/-- C10: the path the initial-file handler substitutes for a root request
equals path.Clean(path.Join("/", p)) with backslashes replaced by slashes; it
always begins with "/" and contains no "." or ".." segments, so the rewrite
cannot escape above the served root; every non-root request path is delegated
unchanged. -/
theorem initial_file_path_rooted_clean (rel requestPath : Str) :
    initialFilePath rel = pathClean (goPathJoin ['/'] (replaceAllChar rel '\\' '/'))
    ∧ (initialFilePath rel).head? = some '/'
    ∧ (∀ seg ∈ splitChar '/' (initialFilePath rel), seg ≠ ['.'] ∧ seg ≠ ['.', '.'])
    ∧ (requestPath ≠ ['/'] →
        initialFileRewrite (initialFilePath rel) requestPath = requestPath) := by
  have hj : (goPathJoin ['/'] (replaceAllChar rel '\\' '/')).head? = some '/' := by
    rw [goPathJoin, if_neg (List.cons_ne_nil '/' [])]
    exact (pathClean_rooted ('/' :: '/' :: replaceAllChar rel '\\' '/') rfl).1
  refine ⟨rfl, ?_, ?_, ?_⟩
  · exact (pathClean_rooted _ hj).1
  · exact (pathClean_rooted _ hj).2
  · intro h
    rw [initialFileRewrite, if_neg h]

/-- Witness for C5: a directory holding only README.md serves the rendered
README for the trailing-slash request. -/
theorem markdown_directory_dispatch_witness :
    ∃ e, e ∈ [(⟨("README.md").data, false⟩ : DirEntry)]
      ∧ e.isDir = false ∧ equalFold e.name ("README.md").data = true
      ∧ buildFileHandler ⟨true, false, false, []⟩ exampleDirFS ("/d/").data
          = .markdownRendered (goPathJoin ("/d/").data e.name) := by
  have h := markdown_directory_dispatch exampleDirFS ("/d/").data
    [⟨("README.md").data, false⟩] false (by decide) (by rfl)
    (by
      intro e he hnd
      rw [List.mem_singleton] at he
      subst he
      exact ⟨_, rfl⟩)
  exact h.2.1 (by decide)
    ⟨⟨("README.md").data, false⟩, List.mem_singleton_self _, rfl, by decide⟩

/-- C9 (amended): with browse mode and Markdown rendering both enabled, a
request whose path is a Markdown file is not intercepted by the browse stage
(which serves only non-Markdown files directly), but it IS rendered to HTML by
the Markdown stage rather than falling through to the static file handler:
only the directory-level Markdown substitution is conditional on non-browse
mode. -/
theorem browse_markdown_still_rendered (fs : FS) (p nm : Str)
    (hne : p ≠ [])
    (hslash : goHasSuffix p ['/'] = false)
    (hopen : fsOpen fs p = some (.file nm))
    (hmd : isMarkdownFile nm = true) :
    buildFileHandler ⟨true, true, false, []⟩ fs p = .markdownRendered p
    ∧ browseDirectFile fs p = false := by
  have hbd : browseDirectFile fs p = false := by
    rw [browseDirectFile]
    rw [if_neg ?hcond]
    case hcond =>
      rintro (h | h)
      · exact hne h
      · rw [hslash] at h
        cases h
    simp only [hopen, hmd]
    rfl
  constructor
  · show browseServeHTTP fs
        (markdownServeHTTP fs false false (fun _ => ServeOutcome.staticServe)) p
      = ServeOutcome.markdownRendered p
    rw [browseServeHTTP, if_neg (by rw [hbd]; intro hcon; cases hcon)]
    rw [if_pos (Or.inl (by rw [hslash]; intro hcon; cases hcon))]
    unfold markdownServeHTTP
    simp only [hopen]
    rw [if_neg (by rw [hmd]; intro hcon; exact hcon rfl)]
    unfold serveMarkdownFile
    simp only [hopen]
  · exact hbd

/-- Counterexample to C9 as stated: in browse mode with Markdown enabled, a
request for the Markdown file /doc.md is rendered to HTML and does not fall
through to the static file handler. -/
theorem browse_markdown_rendered_counterexample :
    buildFileHandler ⟨true, true, false, []⟩ exampleMarkdownFS ("/doc.md").data
        = .markdownRendered ("/doc.md").data
    ∧ buildFileHandler ⟨true, true, false, []⟩ exampleMarkdownFS ("/doc.md").data
        ≠ .staticServe := by
  constructor
  · rfl
  · intro h
    cases h

/-- Witness for C9 (amended): the concrete single-file tree evaluated. -/
theorem browse_markdown_still_rendered_witness :
    buildFileHandler ⟨true, true, false, []⟩ exampleMarkdownFS ("/doc.md").data
        = .markdownRendered ("/doc.md").data
    ∧ browseDirectFile exampleMarkdownFS ("/doc.md").data = false := by
  exact browse_markdown_still_rendered exampleMarkdownFS ("/doc.md").data
    ("doc.md").data (by decide) (by decide) (by rfl) (by decide)

end GHttp
